import Mathlib

/-!
Verification of `src/codes/4_derive_sensitivity_indexes.py` (MVA repository).

The script is Python 2 + numpy.  The shallow embedding below models:
  * Python list/array slicing `y[a:b]` (clamping at the end of the list);
  * Python 2 integer division (`/` on ints is floor division, `Int.fdiv`);
  * `np.reshape` in C (row-major) order, including numpy's treatment of a
    negative entry in the target shape as an "unknown" dimension to be
    inferred (any negative value behaves like `-1` here);
  * `np.swapaxes(·, 0, 1)` on a rank-3 array;
  * the command-line method-string formatting (lines 100-113 of the source);
  * the driver: dispatch on the method tag, layout decoding, opening of the
    output file, the estimator call, and the report writing.

Values are modelled as rationals (`ℚ`).  A numpy error (`ValueError` from
`np.reshape`) is modelled as `Option.none`; the spec's abstract error
taxonomy (`LayoutError`, `UnsupportedMethodError`, ...) corresponds to the
error constructors used by the driver model.

The estimator libraries `lib/sobol_index.py` and `lib/pawn_index.py` are not
part of the visible source; they are modelled from the spec (see the doc
comments on `sobol_index` and `pawn_index`).
-/

/-- Python slice `xs[a:b]` for nonnegative bounds: clamps at the end of the
list, empty when `b ≤ a`. -/
def pySlice (a b : ℕ) (xs : List α) : List α :=
  (xs.drop a).take (b - a)

/-- Row-major (C-order) chunking of `xs` into `a` rows of `b` elements:
the data layout produced by `np.reshape(xs, [a, b])` when it succeeds. -/
def mk2 (xs : List α) (a b : ℕ) : List (List α) :=
  (List.range a).map (fun i => (xs.drop (i * b)).take b)

/-- Row-major filling of `xs` into an `a × b × c` nested list: the data
layout produced by `np.reshape(xs, [a, b, c])` when it succeeds. -/
def mk3 (xs : List α) (a b c : ℕ) : List (List (List α)) :=
  (List.range a).map (fun i =>
    (List.range b).map (fun r => (xs.drop (i * (b * c) + r * c)).take c))

/-- `np.reshape(xs, [d0, d1])` where `d0` may be negative.  numpy treats a
negative entry of the target shape as an unknown dimension: the reshape
succeeds iff the known dimension is nonzero and divides the length.
With `d0 ≥ 0` it succeeds iff the element count matches exactly.
`none` models numpy raising `ValueError`. -/
def reshape2 (xs : List α) (d0 : ℤ) (d1 : ℕ) : Option (List (List α)) :=
  if d0 < 0 then
    if d1 ≠ 0 ∧ xs.length % d1 = 0 then some (mk2 xs (xs.length / d1) d1) else none
  else
    if (xs.length : ℤ) = d0 * d1 then some (mk2 xs d0.toNat d1) else none

/-- `np.reshape(xs, [d0, d1, d2])` where `d0` may be negative (unknown
dimension, inferred when `d1*d2` is nonzero and divides the length). -/
def reshape3 (xs : List α) (d0 : ℤ) (d1 d2 : ℕ) : Option (List (List (List α))) :=
  if d0 < 0 then
    if d1 * d2 ≠ 0 ∧ xs.length % (d1 * d2) = 0 then
      some (mk3 xs (xs.length / (d1 * d2)) d1 d2)
    else none
  else
    if (xs.length : ℤ) = d0 * (d1 * d2) then some (mk3 xs d0.toNat d1 d2) else none

/-- `np.swapaxes(t, 0, 1)` on a rank-3 array of shape `(a, b, c)`:
result `[r][i] = t[i][r]`, of shape `(b, a, c)`.  Nested lists do not carry
the shape, so the length `b` of axis 1 is passed explicitly (for the
rectangular arrays produced by `reshape3` this is exactly numpy's
`swapaxes`). -/
def swapaxes01 (b : ℕ) (t : List (List (List α))) : List (List (List α)) :=
  (List.range b).map (fun r => t.map (fun plane => plane.getD r []))

/-- The three Sobol sample groups of the source (lines 127-131):
`npara`, `model_a`, `model_b`, `model_c`. -/
structure SobolGroups where
  npara : ℤ
  model_a : List ℚ
  model_b : List ℚ
  model_c : List (List ℚ)
deriving DecidableEq, Repr

/-- The PAWN sample groups of the source (lines 138-143):
`npara`, `uncond`, and `cond` after the axis swap. -/
structure PawnGroups where
  npara : ℤ
  uncond : List ℚ
  cond : List (List (List ℚ))
deriving DecidableEq, Repr

/-- Source line 127: `npara = np.shape(y_MVA)[0]/nsets - 2` (Python 2
integer division; both operands nonnegative, so Nat division). -/
def sobolNpara (nsets L : ℕ) : ℤ :=
  ((L / nsets : ℕ) : ℤ) - 2

/-- Sobol branch of the layout decoder, source lines 125-131.
`none` models the numpy `ValueError` raised by `np.reshape`. -/
def sobolLayout (nsets : ℕ) (y : List ℚ) : Option SobolGroups :=
  let npara := sobolNpara nsets y.length
  (reshape2 (y.drop (2 * nsets)) npara nsets).map
    (fun mc => ⟨npara, pySlice 0 nsets y, pySlice nsets (2 * nsets) y, mc⟩)

/-- Source line 138: `npara = (np.shape(y_MVA)[0]-nsets) / (nrepl*nsets)`
(Python 2 `/` on ints is floor division, `Int.fdiv`; the numerator may be
negative).  Note Python raises `ZeroDivisionError` when `nrepl*nsets = 0`
while `Int.fdiv _ 0 = 0`; all claims assume positive `nsets` and `nf`. -/
def pawnNpara (nsets nrepl L : ℕ) : ℤ :=
  Int.fdiv ((L : ℤ) - (nsets : ℤ)) ((nrepl : ℕ) * nsets : ℕ)

/-- Upper bound of the conditional slice, source line 141:
`nsets+nrepl*nsets*(npara+3)`. -/
def pawnHi (nsets nrepl : ℕ) (npara : ℤ) : ℤ :=
  (nsets : ℤ) + (nrepl : ℤ) * (nsets : ℤ) * (npara + 3)

/-- The slice `y_MVA[nsets:nsets+nrepl*nsets*(npara+3)]` of source line 141.
The upper bound is nonnegative whenever `nsets, nrepl ≥ 1` (then
`npara ≥ -1`), so Python's negative-index wrap-around cannot occur and the
slice is the clamped `[nsets, hi)` window. -/
def pawnSlice (nsets nrepl : ℕ) (y : List ℚ) : List ℚ :=
  (y.drop nsets).take ((pawnHi nsets nrepl (pawnNpara nsets nrepl y.length)).toNat - nsets)

/-- PAWN branch of the layout decoder, source lines 133-143: slice the
unconditional block, reshape the conditional slice to `[npara,nrepl,nsets]`,
then swap the first two axes.  `none` models the numpy `ValueError` raised
by `np.reshape`. -/
def pawnLayout (nsets nrepl : ℕ) (y : List ℚ) : Option PawnGroups :=
  let npara := pawnNpara nsets nrepl y.length
  (reshape3 (pawnSlice nsets nrepl y) npara nrepl nsets).map
    (fun c => ⟨npara, pySlice 0 nsets y, swapaxes01 nrepl c⟩)

/-- Estimator failures, following the spec's error taxonomy (§7):
`ShapeError`, `DegenerateSampleError`, `InsufficientSampleError`. -/
inductive EstimErr where
  | shape
  | degenerate
  | insufficientSample
deriving DecidableEq, Repr

/-- Arithmetic mean of a sample (division by zero yields `0` in `ℚ`, but
every use below is guarded). -/
def sampleMean (xs : List ℚ) : ℚ :=
  xs.sum / (xs.length : ℚ)

/-- Population variance: mean of squares minus square of the mean. -/
def sampleVar (xs : List ℚ) : ℚ :=
  sampleMean (xs.map (fun v => v ^ 2)) - (sampleMean xs) ^ 2

/-- Modelled from the spec: `lib/sobol_index.py` (function `sobol_index`,
variant `'Mai1999'`) is not under `src/`.  Following spec §4.2:
`ShapeError` if a row of `modelC` does not have `nsets` elements; the
variance denominator is computed once from the combined `modelA`/`modelB`
pool, and a zero denominator fails with `DegenerateSampleError`; `Si[i]` is
a difference-of-products form (cross products of `modelB` and `modelC[i]`
against the product of the `modelA`/`modelB` means) divided by that
denominator; `STi[i]` is the complementary formula using squared
differences between `modelB` and `modelC[i]`. -/
def sobol_index (ya yb : List ℚ) (yc : List (List ℚ)) :
    Except EstimErr (List ℚ × List ℚ) :=
  if yc.any (fun row => row.length ≠ ya.length) then .error .shape
  else
    let denom := sampleVar (ya ++ yb)
    if denom = 0 then .error .degenerate
    else
      .ok (yc.map (fun ci =>
             (sampleMean (List.zipWith (· * ·) yb ci) - sampleMean ya * sampleMean yb) / denom),
           yc.map (fun ci =>
             sampleMean (List.zipWith (fun p q => (p - q) ^ 2) yb ci) / (2 * denom)))

/-- Empirical CDF of the sample `xs` evaluated at `t`. -/
def ecdfLE (xs : List ℚ) (t : ℚ) : ℚ :=
  (((xs.filter (fun v => v ≤ t)).length : ℕ) : ℚ) / (xs.length : ℚ)

/-- Two-sample Kolmogorov-Smirnov statistic: the maximal distance of the
two empirical CDFs, attained at a sample point. -/
def ksStat (xs ys : List ℚ) : ℚ :=
  ((xs ++ ys).map (fun t => |ecdfLE xs t - ecdfLE ys t|)).foldr max 0

/-- Insertion into a sorted list (ascending). -/
def insSorted (q : ℚ) : List ℚ → List ℚ
  | [] => [q]
  | x :: xs => if q ≤ x then q :: x :: xs else x :: insSorted q xs

/-- Insertion sort (ascending), used by the median. -/
def sortQ (l : List ℚ) : List ℚ :=
  l.foldr insSorted []

/-- Median in numpy's convention: middle element of the sorted sample for
odd length, average of the two middle elements for even length. -/
def medianQ (l : List ℚ) : ℚ :=
  let s := sortQ l
  let n := s.length
  if n = 0 then 0
  else if n % 2 = 1 then s.getD (n / 2) 0
  else (s.getD (n / 2 - 1) 0 + s.getD (n / 2) 0) / 2

/-- Aggregation of the per-replicate KS statistics by the selected
statistic (`mean`, `median` or `max`; spec §4.3).  The statistic name is
one of the three recognized ones in every run the spec describes; the
model falls back to the mean otherwise. -/
def aggStat (stat : List Char) (vals : List ℚ) : ℚ :=
  if stat = "max".toList then vals.foldr max 0
  else if stat = "median".toList then medianQ vals
  else sampleMean vals

/-- Modelled from the spec: the two-sample KS hypothesis test at
confidence level `alpha` (spec §4.3 leaves the library's exact
critical-value formula unspecified).  The model rejects the null when the
squared statistic exceeds an `alpha`-decreasing rational surrogate of the
asymptotic critical value: `2·n·m·ks² > (n+m)·(2-α)/α`. -/
def ksReject (alpha : ℚ) (n m : ℕ) (ks : ℚ) : Bool :=
  decide (2 * ((n : ℚ) * (m : ℚ)) * ks ^ 2 > ((n : ℚ) + (m : ℚ)) * ((2 - alpha) / alpha))

/-- Modelled from the spec: `lib/pawn_index.py` (function `pawn_index`) is
not under `src/`.  Following spec §4.3: `cond` has axes
(replicate, parameter, sample); per parameter and replicate the KS
statistic against `uncond` is computed, aggregated across replicates by
`stat`; `influential` is true when at least one replicate rejects the KS
null at level `alpha` ("any replicate rejects", the rule the spec names as
the natural choice).  An empty sample fails with
`InsufficientSampleError`, inconsistent or empty conditional groups with
`ShapeError`. -/
def pawn_index (uncond : List ℚ) (cond : List (List (List ℚ)))
    (stat : List Char) (alpha : ℚ) : Except EstimErr (List ℚ × List Bool) :=
  let n := uncond.length
  if n = 0 then .error .insufficientSample
  else
    let npara := (cond.headD []).length
    if cond.any (fun plane => plane.length ≠ npara) then .error .shape
    else if cond.any (fun plane => plane.any (fun row => row.length = 0)) then .error .shape
    else
      .ok ((List.range npara).map (fun i =>
              aggStat stat (cond.map (fun plane => ksStat (plane.getD i []) uncond))),
           (List.range npara).map (fun i =>
              cond.any (fun plane =>
                ksReject alpha (plane.getD i []).length n (ksStat (plane.getD i []) uncond))))

/-- Python's `str` on the rational values of the model (an injective
rendering standing in for `str(float)`; the report claims only say the
values are written untransformed, i.e. through this one rendering). -/
def pyStr (q : ℚ) : String :=
  if q.den = 1 then toString q.num else toString q.num ++ "/" ++ toString q.den

/-- Python's `str` on booleans. -/
def pyBoolStr (b : Bool) : String :=
  if b then "True" else "False"

/-- Sobol report, source lines 166-168: header `"# Si    STi \n"`, then for
`ipara in range(npara)` the line `str(si[ipara]) + " " + str(sti[ipara]) + " \n"`
(`range` of a negative number is empty, hence `Int.toNat`). -/
def sobolReport (npara : ℤ) (si sti : List ℚ) : String :=
  "# Si    STi \n" ++
    String.join ((List.range npara.toNat).map (fun i =>
      pyStr (si.getD i 0) ++ " " ++ pyStr (sti.getD i 0) ++ " \n"))

/-- PAWN report, source lines 183-185: header `"# PAWN    Influential \n"`,
then one line per parameter. -/
def pawnReport (npara : ℤ) (pw : List ℚ) (infl : List Bool) : String :=
  "# PAWN    Influential \n" ++
    String.join ((List.range npara.toNat).map (fun i =>
      pyStr (pw.getD i 0) ++ " " ++ pyBoolStr (infl.getD i false) ++ " \n"))

/-- The formatted `method` list of the source.  In Python it is a
heterogeneous list; the driver reads `method[0]` always and
`method[1..3]` only in the `'pawn'` branch, so the extra raw string
elements of a non-pawn method are dropped here (they are never read). -/
structure MethodSpec where
  tag : List Char
  nf : ℤ := 0
  stat : List Char := []
  alpha : ℚ := 0
deriving DecidableEq, Repr

/-- Errors of the driver run (source lines 125-191): `layout` is the numpy
reshape `ValueError` (the spec's `LayoutError`), `unsupported` the
`raise ValueError` of the `else` branches (the spec's
`UnsupportedMethodError`), `estim` an estimator failure. -/
inductive RunErr where
  | layout
  | unsupported
  | estim (e : EstimErr)
deriving DecidableEq, Repr

deriving instance DecidableEq for Except

/-- Observable outcome of the driver run: the output file (`none` = never
opened, `some s` = opened for writing with final contents `s`), whether an
estimator was invoked, and the result. -/
structure RunOut where
  file : Option String
  estCalled : Bool
  res : Except RunErr Unit
deriving DecidableEq, Repr

/-- The driver, source lines 125-191: dispatch on `method[0]`, decode the
layout, open the output file for writing (line 150, which creates or
truncates it), run the estimator, write the report.  The unreachable
second `else: raise ValueError` (lines 187-189) sits behind the identical
first dispatch and is subsumed by the single `unsupported` case. -/
def runMethod (m : MethodSpec) (nsets : ℕ) (y : List ℚ) : RunOut :=
  if m.tag = "sobol".toList then
    match sobolLayout nsets y with
    | none => ⟨none, false, .error .layout⟩
    | some g =>
      match sobol_index g.model_a g.model_b g.model_c with
      | .error e => ⟨some "", true, .error (.estim e)⟩
      | .ok (si, sti) => ⟨some (sobolReport g.npara si sti), true, .ok ()⟩
  else if m.tag = "pawn".toList then
    match pawnLayout nsets m.nf.toNat y with
    | none => ⟨none, false, .error .layout⟩
    | some g =>
      match pawn_index g.uncond g.cond m.stat m.alpha with
      | .error e => ⟨some "", true, .error (.estim e)⟩
      | .ok (pw, infl) => ⟨some (pawnReport g.npara pw infl), true, .ok ()⟩
  else ⟨none, false, .error .unsupported⟩

/-- `s.replace(c, '')` of Python: remove every occurrence of the
character. -/
def removeChar (c : Char) (s : List Char) : List Char :=
  s.filter (fun x => x ≠ c)

/-- Prepend a character to the first piece of a split result. -/
def consHead (x : α) : List (List α) → List (List α)
  | [] => [[x]]
  | y :: ys => (x :: y) :: ys

/-- Python `s.split(',')`: always returns at least one (possibly empty)
piece. -/
def splitComma : List Char → List (List Char)
  | [] => [[]]
  | x :: rest => if x = ',' then [] :: splitComma rest else consHead x (splitComma rest)

/-- Python `s.split('],')`: split on non-overlapping occurrences of the
two-character separator, scanning left to right. -/
def splitBrComma : List Char → List (List Char)
  | [] => [[]]
  | [x] => [[x]]
  | x :: y :: rest =>
    if x = ']' ∧ y = ',' then [] :: splitBrComma rest
    else consHead x (splitBrComma (y :: rest))

/-- Python 2 `int(s)` (and `np.int`): optional surrounding whitespace, an
optional sign, then a nonempty digit string; anything else raises
`ValueError` (`none`). -/
def pyInt (s : List Char) : Option ℤ :=
  let t := ((s.dropWhile Char.isWhitespace).reverse.dropWhile Char.isWhitespace).reverse
  let digits := fun (ds : List Char) => ds ≠ [] ∧ ds.all Char.isDigit
  let val := fun (ds : List Char) =>
    (ds.foldl (fun n c => 10 * n + (c.toNat - 48)) 0 : ℕ)
  match t with
  | '-' :: ds => if digits ds then some (-(val ds : ℤ)) else none
  | '+' :: ds => if digits ds then some ((val ds : ℤ)) else none
  | ds => if digits ds then some ((val ds : ℤ)) else none

/-- Python 2 `float(s)` (and `np.float`), restricted to plain decimal
literals: optional surrounding whitespace and sign, digits with at most
one decimal point, at least one digit.  (The driver only ever converts the
fourth `pawn` element with it; no claim exercises other forms.) -/
def pyFloat (s : List Char) : Option ℚ :=
  let t := ((s.dropWhile Char.isWhitespace).reverse.dropWhile Char.isWhitespace).reverse
  let core := fun (ds : List Char) =>
    let intPart := ds.takeWhile Char.isDigit
    let rest := ds.dropWhile Char.isDigit
    match rest with
    | [] => if ds ≠ [] then some ((intPart.foldl (fun n c => 10 * n + (c.toNat - 48)) 0 : ℕ) : ℚ) else none
    | '.' :: frac =>
      if (intPart ≠ [] ∨ frac ≠ []) ∧ frac.all Char.isDigit then
        some (((intPart.foldl (fun n c => 10 * n + (c.toNat - 48)) 0 : ℕ) : ℚ) +
          ((frac.foldl (fun n c => 10 * n + (c.toNat - 48)) 0 : ℕ) : ℚ) / ((10 : ℚ) ^ frac.length))
      else none
    | _ => none
  match t with
  | '-' :: ds => (core ds).map (fun q => -q)
  | '+' :: ds => core ds
  | ds => core ds

/-- Errors of the method-string formatting step (source lines 100-113):
`indexErr` is Python's untyped `IndexError` (list index out of range),
`valueErr` the `ValueError` of a failed `int`/`float` conversion. -/
inductive FmtErr where
  | indexErr
  | valueErr
deriving DecidableEq, Repr

/-- The processed element list `tmp` of the source (lines 105-106):
`tmp = args.method.replace('[','').split('],')`, then
`[ s.replace(']','').split(',') for s in tmp ][0]`. -/
def methodTmp (s : List Char) : List (List Char) :=
  splitComma (removeChar ']' ((splitBrComma (removeChar '[' s)).headD []))

/-- The method-argument formatting, source lines 100-113.  `none` as the
argument models an absent `-m` flag (the default `['sobol']`).  In the
`'pawn'` branch the accesses and conversions happen in source order:
`tmp[1]`, `np.int(tmp[1])`, `tmp[2]`, `tmp[3]`, `np.float(tmp[3])`. -/
def methodFormat (arg : Option (List Char)) : Except FmtErr MethodSpec :=
  match arg with
  | none => .ok ⟨"sobol".toList, 0, [], 0⟩
  | some s =>
    let tmp := methodTmp s
    let t0 := tmp.headD []
    if t0 = "pawn".toList then
      match tmp[1]? with
      | none => .error .indexErr
      | some t1 =>
        match pyInt t1 with
        | none => .error .valueErr
        | some nfv =>
          match tmp[2]? with
          | none => .error .indexErr
          | some t2 =>
            match tmp[3]? with
            | none => .error .indexErr
            | some t3 =>
              match pyFloat t3 with
              | none => .error .valueErr
              | some alphav => .ok ⟨t0, nfv, t2, alphav⟩
    else .ok ⟨t0, 0, [], 0⟩

/-- Top-level errors: a formatting error or a run error. -/
inductive ProgErr where
  | fmt (e : FmtErr)
  | run (e : RunErr)
deriving DecidableEq, Repr

/-- Observable outcome of the whole script: whether the input file was
read, the output file state, whether an estimator was invoked, and the
result. -/
structure Outcome where
  readInput : Bool
  file : Option String
  estCalled : Bool
  res : Except ProgErr Unit
deriving DecidableEq, Repr

/-- The whole script in source order: format the method argument
(lines 100-113), then read the input file (lines 119-122), then run the
dispatch/layout/estimator/report part (lines 125-191).  The driver reaches
the `nf.toNat` conversion only with a `pawn` method, whose `nf` field was
produced by `np.int`; no claim exercises a negative `nf`. -/
def program (methodArg : Option (List Char)) (nsets : ℕ) (y : List ℚ) : Outcome :=
  match methodFormat methodArg with
  | .error e => ⟨false, none, false, .error (.fmt e)⟩
  | .ok m =>
    let r := runMethod m nsets y
    ⟨true, r.file, r.estCalled, r.res.mapError .run⟩

/-! ### Helper lemmas about the reshape primitives -/

theorem length_mk2 (xs : List α) (a b : ℕ) : (mk2 xs a b).length = a := by
  simp [mk2]

theorem mk2_getD (xs : List α) (a b i : ℕ) (h : i < a) :
    (mk2 xs a b).getD i [] = (xs.drop (i * b)).take b := by
  simp [mk2, List.getD_eq_getElem?_getD, List.getElem?_map, List.getElem?_range h]

theorem getD_drop (xs : List α) (dflt : α) (k m : ℕ) :
    (xs.drop k).getD m dflt = xs.getD (k + m) dflt := by
  simp [List.getD_eq_getElem?_getD, List.getElem?_drop]

theorem getD_drop_take (xs : List α) (dflt : α) (k b j : ℕ) (hj : j < b) :
    ((xs.drop k).take b).getD j dflt = xs.getD (k + j) dflt := by
  simp [List.getD_eq_getElem?_getD, List.getElem?_take_of_lt hj, List.getElem?_drop]

theorem mk2_flatten (xs : List α) (b : ℕ) :
    ∀ a, (mk2 xs a b).flatten = xs.take (a * b)
  | 0 => by simp [mk2]
  | a + 1 => by
    have ih := mk2_flatten xs b a
    simp only [mk2, List.range_succ, List.map_append, List.map_cons, List.map_nil,
      List.flatten_append, List.flatten_cons, List.flatten_nil, List.append_nil] at *
    rw [ih, ← List.take_add]
    congr 1
    ring

theorem length_mk3 (xs : List α) (a b c : ℕ) : (mk3 xs a b c).length = a := by
  simp [mk3]

theorem mk3_getD (xs : List α) (a b c i : ℕ) (h : i < a) :
    (mk3 xs a b c).getD i [] =
      (List.range b).map (fun r => (xs.drop (i * (b * c) + r * c)).take c) := by
  simp [mk3, List.getD_eq_getElem?_getD, List.getElem?_map, List.getElem?_range h]

theorem length_swapaxes01 (b : ℕ) (t : List (List (List α))) :
    (swapaxes01 b t).length = b := by
  simp [swapaxes01]

theorem swapaxes01_getD (b : ℕ) (t : List (List (List α))) (r : ℕ) (hr : r < b) :
    (swapaxes01 b t).getD r [] = t.map (fun plane => plane.getD r []) := by
  simp [swapaxes01, List.getD_eq_getElem?_getD, List.getElem?_map, List.getElem?_range hr]

/-! ### The Sobol layout on well-formed input -/

/-- On input of exact Sobol length `(pc+2)*nsets` the decoder succeeds and
produces the three groups. -/
theorem sobolLayout_eq (nsets pc : ℕ) (y : List ℚ) (hn : 0 < nsets)
    (hL : y.length = (pc + 2) * nsets) :
    sobolLayout nsets y = some ⟨(pc : ℤ), y.take nsets, (y.drop nsets).take nsets,
      mk2 (y.drop (2 * nsets)) pc nsets⟩ := by
  have hnp : sobolNpara nsets y.length = (pc : ℤ) := by
    unfold sobolNpara
    rw [hL, Nat.mul_div_cancel _ hn]
    push_cast
    ring
  have hlen : (y.drop (2 * nsets)).length = pc * nsets := by
    simp [hL]
    ring_nf
    omega
  have hcond : (((y.drop (2 * nsets)).length : ℕ) : ℤ) = (pc : ℤ) * (nsets : ℤ) := by
    rw [hlen]; push_cast; ring
  have hma : pySlice 0 nsets y = y.take nsets := by
    simp [pySlice]
  have hmb : pySlice nsets (2 * nsets) y = (y.drop nsets).take nsets := by
    simp only [pySlice]
    have h2 : 2 * nsets - nsets = nsets := by omega
    rw [h2]
  simp only [sobolLayout, reshape2, hnp]
  rw [if_neg (by omega : ¬ ((pc : ℤ) < 0)), if_pos hcond]
  simp only [Option.map_some']
  have htn : ((pc : ℤ)).toNat = pc := rfl
  rw [htn, hma, hmb]

/-! ### The PAWN layout on well-formed input -/

/-- On input of exact PAWN length the floor division is exact. -/
theorem pawnNpara_eq (nsets nrepl pc L : ℕ) (hn : 0 < nsets) (hr : 0 < nrepl)
    (hL : L = nsets + pc * (nrepl * nsets)) :
    pawnNpara nsets nrepl L = (pc : ℤ) := by
  unfold pawnNpara
  have h1 : (L : ℤ) - (nsets : ℤ) = (pc : ℤ) * ((nrepl * nsets : ℕ) : ℤ) := by
    rw [hL]; push_cast; ring
  rw [h1, Int.mul_fdiv_cancel]
  have h2 : nrepl * nsets ≠ 0 := by positivity
  exact_mod_cast h2

/-- The clamped conditional slice covers the whole tail `y[nsets:]` on
input of exact PAWN length (the oversized upper bound only ever clamps). -/
theorem pawnSlice_eq (nsets nrepl pc : ℕ) (y : List ℚ) (hn : 0 < nsets) (hr : 0 < nrepl)
    (hL : y.length = nsets + pc * (nrepl * nsets)) :
    pawnSlice nsets nrepl y = y.drop nsets := by
  unfold pawnSlice
  rw [pawnNpara_eq nsets nrepl pc y.length hn hr hL]
  have hhi : pawnHi nsets nrepl (pc : ℤ) = ((nsets + nrepl * nsets * (pc + 3) : ℕ) : ℤ) := by
    unfold pawnHi; push_cast; ring
  rw [hhi]
  have htn : ((nsets + nrepl * nsets * (pc + 3) : ℕ) : ℤ).toNat
      = nsets + nrepl * nsets * (pc + 3) := rfl
  rw [htn]
  apply List.take_of_length_le
  simp only [List.length_drop, hL]
  calc nsets + pc * (nrepl * nsets) - nsets = pc * (nrepl * nsets) := by omega
    _ ≤ nsets + nrepl * nsets * (pc + 3) - nsets := by
        have : pc * (nrepl * nsets) ≤ nrepl * nsets * (pc + 3) := by
          rw [Nat.mul_comm]
          exact Nat.mul_le_mul_left _ (by omega)
        omega

/-- On input of exact PAWN length the decoder succeeds and produces the
unconditional block and the reshaped, axis-swapped conditional block. -/
theorem pawnLayout_eq (nsets nrepl pc : ℕ) (y : List ℚ) (hn : 0 < nsets) (hr : 0 < nrepl)
    (hL : y.length = nsets + pc * (nrepl * nsets)) :
    pawnLayout nsets nrepl y = some ⟨(pc : ℤ), y.take nsets,
      swapaxes01 nrepl (mk3 (y.drop nsets) pc nrepl nsets)⟩ := by
  have hnp := pawnNpara_eq nsets nrepl pc y.length hn hr hL
  have hs := pawnSlice_eq nsets nrepl pc y hn hr hL
  have hlen : (y.drop nsets).length = pc * (nrepl * nsets) := by
    simp [hL]
  have hcond : (((y.drop nsets).length : ℕ) : ℤ) = (pc : ℤ) * ((nrepl : ℤ) * (nsets : ℤ)) := by
    rw [hlen]; push_cast; ring
  have hma : pySlice 0 nsets y = y.take nsets := by
    simp [pySlice]
  simp only [pawnLayout, reshape3, hnp, hs]
  rw [if_neg (by omega : ¬ ((pc : ℤ) < 0)), if_pos hcond]
  simp only [Option.map_some']
  have htn : ((pc : ℤ)).toNat = pc := rfl
  rw [htn, hma]

/-! ### Exact characterization of layout failure -/

/-- The Sobol layout fails (numpy `ValueError`) exactly when the vector is
at least `2*nsets` long and `nsets` does not divide its length; for
shorter vectors the computed `npara` is negative, numpy infers the unknown
dimension of the empty remainder, and no error occurs. -/
theorem sobolLayout_none_iff (nsets : ℕ) (y : List ℚ) (hn : 0 < nsets) :
    sobolLayout nsets y = none ↔ 2 * nsets ≤ y.length ∧ ¬ nsets ∣ y.length := by
  obtain ⟨q, r, hdm, hml, hqdef, hrdef⟩ :
      ∃ q r, nsets * q + r = y.length ∧ r < nsets ∧
        q = y.length / nsets ∧ r = y.length % nsets :=
    ⟨_, _, Nat.div_add_mod _ _, Nat.mod_lt _ hn, rfl, rfl⟩
  have hdvd : nsets ∣ y.length ↔ r = 0 := by
    rw [hrdef]; exact Nat.dvd_iff_mod_eq_zero
  rw [hdvd]
  simp only [sobolLayout, Option.map_eq_none', reshape2, sobolNpara, List.length_drop, ← hqdef]
  have hsplit : ((q : ℤ) - 2) * (nsets : ℤ) = ((nsets * q : ℕ) : ℤ) - 2 * (nsets : ℤ) := by
    push_cast
    ring
  by_cases hneg : (q : ℤ) - 2 < 0
  · have h2 : ¬ 2 * nsets ≤ y.length := by
      have hb : nsets * q ≤ nsets * 1 := Nat.mul_le_mul_left nsets (by omega)
      omega
    rw [if_pos hneg, if_pos]
    · simp only [reduceCtorEq, false_iff]
      omega
    · refine ⟨by omega, ?_⟩
      have hz : y.length - 2 * nsets = 0 := by omega
      rw [hz]
      exact Nat.zero_mod _
  · have h2 : 2 * nsets ≤ y.length := by
      have hb : nsets * 2 ≤ nsets * q := Nat.mul_le_mul_left nsets (by omega)
      omega
    rw [if_neg hneg]
    by_cases hcond : ((y.length - 2 * nsets : ℕ) : ℤ) = ((q : ℤ) - 2) * (nsets : ℤ)
    · rw [if_pos hcond]
      rw [hsplit] at hcond
      simp only [reduceCtorEq, false_iff]
      intro hc
      omega
    · rw [if_neg hcond]
      rw [hsplit] at hcond
      simp only [true_iff]
      refine ⟨h2, fun hc => hcond ?_⟩
      omega

/-- The PAWN layout fails (numpy `ValueError`) exactly when the vector is
at least `nsets` long and `nrepl*nsets` does not divide the tail length;
for shorter vectors the computed `npara` is negative, numpy infers the
unknown dimension of the empty remainder, and no error occurs. -/
theorem pawnLayout_none_iff (nsets nrepl : ℕ) (y : List ℚ) (hn : 0 < nsets) (hr : 0 < nrepl) :
    pawnLayout nsets nrepl y = none ↔
      nsets ≤ y.length ∧ ¬ (nrepl * nsets) ∣ (y.length - nsets) := by
  have hdpos : 0 < nrepl * nsets := by positivity
  by_cases hns : nsets ≤ y.length
  · -- the floor division is a Nat division of the tail length
    obtain ⟨q, r, hdm, hml, hqdef, hrdef⟩ :
        ∃ q r, nrepl * nsets * q + r = y.length - nsets ∧ r < nrepl * nsets ∧
          q = (y.length - nsets) / (nrepl * nsets) ∧
          r = (y.length - nsets) % (nrepl * nsets) :=
      ⟨_, _, Nat.div_add_mod _ _, Nat.mod_lt _ hdpos, rfl, rfl⟩
    have hnp : pawnNpara nsets nrepl y.length = (q : ℤ) := by
      unfold pawnNpara
      have hnum : (y.length : ℤ) - (nsets : ℤ) = ((y.length - nsets : ℕ) : ℤ) := by omega
      rw [hnum, ← Int.ofNat_fdiv, ← hqdef]
    have hdvd : (nrepl * nsets) ∣ (y.length - nsets) ↔ r = 0 := by
      rw [hrdef]; exact Nat.dvd_iff_mod_eq_zero
    -- the oversized slice clamps to the whole tail
    have hhi : (pawnHi nsets nrepl (q : ℤ)).toNat = nsets + nrepl * nsets * (q + 3) := by
      unfold pawnHi
      have hcast : (nsets : ℤ) + (nrepl : ℤ) * (nsets : ℤ) * ((q : ℤ) + 3)
          = ((nsets + nrepl * nsets * (q + 3) : ℕ) : ℤ) := by
        push_cast
        ring
      rw [hcast]
      rfl
    have hslice : pawnSlice nsets nrepl y = y.drop nsets := by
      unfold pawnSlice
      rw [hnp, hhi]
      apply List.take_of_length_le
      simp only [List.length_drop]
      have hd3 : nrepl * nsets * (q + 3) = nrepl * nsets * q + 3 * (nrepl * nsets) := by
        ring
      omega
    have hslen : (pawnSlice nsets nrepl y).length = y.length - nsets := by
      rw [hslice, List.length_drop]
    have hsplit : (q : ℤ) * ((nrepl : ℤ) * (nsets : ℤ)) = ((nrepl * nsets * q : ℕ) : ℤ) := by
      push_cast
      ring
    rw [hdvd]
    simp only [pawnLayout, Option.map_eq_none', reshape3, hnp, hslen]
    rw [if_neg (by omega : ¬ ((q : ℤ) < 0))]
    by_cases hcond : ((y.length - nsets : ℕ) : ℤ) = (q : ℤ) * ((nrepl : ℤ) * (nsets : ℤ))
    · rw [if_pos hcond]
      rw [hsplit] at hcond
      simp only [reduceCtorEq, false_iff]
      intro hc
      omega
    · rw [if_neg hcond]
      rw [hsplit] at hcond
      simp only [true_iff]
      refine ⟨hns, fun hc => hcond ?_⟩
      omega
  · -- vector shorter than `nsets`: negative inferred dimension, no error
    have hnp : pawnNpara nsets nrepl y.length < 0 := by
      unfold pawnNpara
      apply Int.fdiv_neg' (by omega)
      exact_mod_cast hdpos
    have hdrop : y.drop nsets = [] := List.drop_of_length_le (by omega)
    have hslen : (pawnSlice nsets nrepl y).length = 0 := by
      unfold pawnSlice
      rw [hdrop]
      simp
    simp only [pawnLayout, Option.map_eq_none', reshape3, hslen]
    rw [if_pos hnp, if_pos]
    · simp only [reduceCtorEq, false_iff]
      omega
    · exact ⟨by positivity, Nat.zero_mod _⟩

example : sobolLayout 2 [1, 2, 3, 4, 5, 6] =
    some ⟨1, [1, 2], [3, 4], [[5, 6]]⟩ := by decide

example : sobolLayout 2 [1, 2, 3, 4, 5] = none := by decide

example : (sobolLayout 2 [1, 2]).isSome = true := by decide

example : pawnLayout 3 2 [0, 0, 0, 1, 1, 1, 2, 2, 2] =
    some ⟨1, [0, 0, 0], [[[1, 1, 1]], [[2, 2, 2]]]⟩ := by decide

example : pawnLayout 2 1 [1, 2, 3] = none := by decide

example : (pawnLayout 2 1 [1]).isSome = true := by decide

/-! ### Claim C2 -/

/-- C2: for every output vector `y` of length `L` and every positive
`nsets` with `L = (parameterCount + 2) * nsets` for a nonnegative integer
`parameterCount`, the Sobol layout decoder sets
`parameterCount = L / nsets - 2`, `modelA = y[0:nsets]`,
`modelB = y[nsets:2*nsets]`, and `modelC` is the remaining `L - 2*nsets`
elements reshaped row-major into `parameterCount` rows of `nsets`
elements, so `modelC[i][j] = y[2*nsets + i*nsets + j]`. -/
theorem sobol_layout_decode_correct (nsets pc : ℕ) (y : List ℚ) (hn : 0 < nsets)
    (hL : y.length = (pc + 2) * nsets) :
    ∃ g, sobolLayout nsets y = some g ∧
      g.npara = ((y.length / nsets : ℕ) : ℤ) - 2 ∧
      g.npara = (pc : ℤ) ∧
      g.model_a = y.take nsets ∧
      g.model_b = (y.drop nsets).take nsets ∧
      g.model_c.length = pc ∧
      (∀ i, i < pc → (g.model_c.getD i []).length = nsets) ∧
      (∀ i j, i < pc → j < nsets →
        (g.model_c.getD i []).getD j 0 = y.getD (2 * nsets + i * nsets + j) 0) := by
  refine ⟨_, sobolLayout_eq nsets pc y hn hL, ?_, rfl, rfl, rfl, length_mk2 _ _ _, ?_, ?_⟩
  · show (pc : ℤ) = ((y.length / nsets : ℕ) : ℤ) - 2
    rw [hL, Nat.mul_div_cancel _ hn]
    push_cast
    ring
  · intro i hi
    rw [mk2_getD _ _ _ _ hi]
    rw [List.length_take, List.length_drop, List.length_drop, hL]
    have h1 : nsets * (i + 1) ≤ nsets * pc := Nat.mul_le_mul_left nsets (by omega)
    have h2 : (pc + 2) * nsets = nsets * pc + 2 * nsets := by ring
    have h3 : i * nsets = nsets * i := by ring
    have h4 : nsets * (i + 1) = nsets * i + nsets := by ring
    omega
  · intro i j hi hj
    rw [mk2_getD _ _ _ _ hi, getD_drop_take _ _ _ _ _ hj, getD_drop]
    congr 1
    omega

/-- Witness for C2 at the spec's concrete scenario A. -/
theorem sobol_layout_decode_correct_witness :
    0 < 2 ∧ ([1, 2, 3, 4, 5, 6] : List ℚ).length = (1 + 2) * 2 ∧
    (∃ g, sobolLayout 2 [1, 2, 3, 4, 5, 6] = some g ∧
      g.npara = ((([1, 2, 3, 4, 5, 6] : List ℚ).length / 2 : ℕ) : ℤ) - 2 ∧
      g.npara = ((1 : ℕ) : ℤ) ∧
      g.model_a = ([1, 2, 3, 4, 5, 6] : List ℚ).take 2 ∧
      g.model_b = (([1, 2, 3, 4, 5, 6] : List ℚ).drop 2).take 2 ∧
      g.model_c.length = 1 ∧
      (∀ i, i < 1 → (g.model_c.getD i []).length = 2) ∧
      (∀ i j, i < 1 → j < 2 →
        (g.model_c.getD i []).getD j 0
          = ([1, 2, 3, 4, 5, 6] : List ℚ).getD (2 * 2 + i * 2 + j) 0)) :=
  ⟨by decide, by decide,
    sobol_layout_decode_correct 2 1 [1, 2, 3, 4, 5, 6] (by decide) (by decide)⟩

/-! ### Claim C4 -/

/-- C4: for every `L`, `nsets`, `parameterCount` satisfying the Sobol
exact-division invariant `L = (parameterCount+2)*nsets` and every vector
`y` of length `L`, concatenating `modelA`, `modelB` and the row-major
flattening of `modelC` reproduces `y` exactly. -/
theorem sobol_reshape_roundtrip (nsets pc : ℕ) (y : List ℚ) (hn : 0 < nsets)
    (hL : y.length = (pc + 2) * nsets) :
    ∃ g, sobolLayout nsets y = some g ∧
      g.model_a ++ g.model_b ++ g.model_c.flatten = y := by
  refine ⟨_, sobolLayout_eq nsets pc y hn hL, ?_⟩
  show y.take nsets ++ (y.drop nsets).take nsets ++ (mk2 (y.drop (2 * nsets)) pc nsets).flatten = y
  rw [mk2_flatten]
  have hlen : (y.drop (2 * nsets)).length = pc * nsets := by
    simp [hL]
    ring_nf
    omega
  rw [← hlen, List.take_length]
  have hdd : y.drop (2 * nsets) = (y.drop nsets).drop nsets := by
    rw [List.drop_drop]
    congr 1
    omega
  rw [List.append_assoc, hdd, List.take_append_drop, List.take_append_drop]

/-- Witness for C4 at the spec's concrete scenario A. -/
theorem sobol_reshape_roundtrip_witness :
    0 < 2 ∧ ([1, 2, 3, 4, 5, 6] : List ℚ).length = (1 + 2) * 2 ∧
    (∃ g, sobolLayout 2 [1, 2, 3, 4, 5, 6] = some g ∧
      g.model_a ++ g.model_b ++ g.model_c.flatten = [1, 2, 3, 4, 5, 6]) :=
  ⟨by decide, by decide,
    sobol_reshape_roundtrip 2 1 [1, 2, 3, 4, 5, 6] (by decide) (by decide)⟩

/-! ### Claim C9 -/

/-- C9: in the PAWN layout branch the conditional slice's upper bound
`nsets + nrepl*nsets*(npara+3)` exceeds the input vector's length whenever
`L = nsets + npara*nrepl*nsets`, yet the slice is clamped to the vector's
end, equals `y[nsets:]`, has exactly `npara*nrepl*nsets` elements, and the
subsequent reshape to `[npara, nrepl, nsets]` succeeds without error. -/
theorem pawn_slice_clamped (nsets nrepl pc : ℕ) (y : List ℚ) (hn : 0 < nsets)
    (hr : 0 < nrepl) (hL : y.length = nsets + pc * (nrepl * nsets)) :
    pawnNpara nsets nrepl y.length = (pc : ℤ) ∧
    (y.length : ℤ) < pawnHi nsets nrepl (pc : ℤ) ∧
    pawnSlice nsets nrepl y = y.drop nsets ∧
    (pawnSlice nsets nrepl y).length = pc * (nrepl * nsets) ∧
    (pawnLayout nsets nrepl y).isSome = true := by
  have hnp := pawnNpara_eq nsets nrepl pc y.length hn hr hL
  have hs := pawnSlice_eq nsets nrepl pc y hn hr hL
  refine ⟨hnp, ?_, hs, ?_, ?_⟩
  · unfold pawnHi
    rw [hL]
    have hpos : (0 : ℤ) < (nrepl : ℤ) * (nsets : ℤ) := by positivity
    push_cast
    nlinarith
  · rw [hs]
    simp [hL]
  · rw [pawnLayout_eq nsets nrepl pc y hn hr hL]
    rfl

/-- Witness for C9 at the spec's concrete scenario B. -/
theorem pawn_slice_clamped_witness :
    0 < 3 ∧ 0 < 2 ∧ ([0, 0, 0, 1, 1, 1, 2, 2, 2] : List ℚ).length = 3 + 1 * (2 * 3) ∧
    (pawnNpara 3 2 ([0, 0, 0, 1, 1, 1, 2, 2, 2] : List ℚ).length = ((1 : ℕ) : ℤ) ∧
     (([0, 0, 0, 1, 1, 1, 2, 2, 2] : List ℚ).length : ℤ) < pawnHi 3 2 ((1 : ℕ) : ℤ) ∧
     pawnSlice 3 2 [0, 0, 0, 1, 1, 1, 2, 2, 2]
       = ([0, 0, 0, 1, 1, 1, 2, 2, 2] : List ℚ).drop 3 ∧
     (pawnSlice 3 2 ([0, 0, 0, 1, 1, 1, 2, 2, 2] : List ℚ)).length = 1 * (2 * 3) ∧
     (pawnLayout 3 2 [0, 0, 0, 1, 1, 1, 2, 2, 2]).isSome = true) :=
  ⟨by decide, by decide, by decide,
    pawn_slice_clamped 3 2 1 [0, 0, 0, 1, 1, 1, 2, 2, 2] (by decide) (by decide) (by decide)⟩

/-! ### Claim C3 -/

/-- C3: for every output vector `y` of length
`L = nsets + parameterCount*nf*nsets` with positive `nsets`, `nf` and
`parameterCount`, the PAWN layout decoder sets
`parameterCount = (L-nsets)/(nf*nsets)`, `unconditional = y[0:nsets]`, and
the conditional tensor, after the reshape to
`parameterCount × nf × nsets` and the swap of the first two axes, is
indexed with the conditioning replicate outermost:
`conditional[r][i][s] = y[nsets + i*nf*nsets + r*nsets + s]`. -/
theorem pawn_layout_decode_correct (nsets nrepl pc : ℕ) (y : List ℚ) (hn : 0 < nsets)
    (hr : 0 < nrepl) (hpc : 0 < pc) (hL : y.length = nsets + pc * (nrepl * nsets)) :
    ∃ g, pawnLayout nsets nrepl y = some g ∧
      g.npara = (((y.length - nsets) / (nrepl * nsets) : ℕ) : ℤ) ∧
      g.npara = (pc : ℤ) ∧
      g.uncond = y.take nsets ∧
      g.cond.length = nrepl ∧
      (∀ r, r < nrepl → (g.cond.getD r []).length = pc) ∧
      (∀ r i s, r < nrepl → i < pc → s < nsets →
        ((g.cond.getD r []).getD i []).getD s 0
          = y.getD (nsets + i * (nrepl * nsets) + r * nsets + s) 0) := by
  refine ⟨_, pawnLayout_eq nsets nrepl pc y hn hr hL, ?_, rfl, ?_, length_swapaxes01 _ _, ?_, ?_⟩
  · show (pc : ℤ) = (((y.length - nsets) / (nrepl * nsets) : ℕ) : ℤ)
    have hq : (y.length - nsets) / (nrepl * nsets) = pc := by
      rw [hL]
      have h1 : nsets + pc * (nrepl * nsets) - nsets = pc * (nrepl * nsets) := by omega
      rw [h1, Nat.mul_div_cancel _ (by positivity)]
    rw [hq]
  · show pySlice 0 nsets y = y.take nsets
    simp [pySlice]
  · intro r hrr
    rw [swapaxes01_getD _ _ _ hrr]
    simp [mk3]
  · intro r i s hrr hi hs
    rw [swapaxes01_getD _ _ _ hrr]
    have h1 : ((mk3 (y.drop nsets) pc nrepl nsets).map (fun plane => plane.getD r [])).getD i []
        = ((List.range nrepl).map
            (fun r2 => ((y.drop nsets).drop (i * (nrepl * nsets) + r2 * nsets)).take nsets)).getD r [] := by
      simp [mk3, List.map_map, List.getD_eq_getElem?_getD, List.getElem?_map,
        List.getElem?_range hi, Function.comp]
    have h2 : ((List.range nrepl).map
          (fun r2 => ((y.drop nsets).drop (i * (nrepl * nsets) + r2 * nsets)).take nsets)).getD r []
        = ((y.drop nsets).drop (i * (nrepl * nsets) + r * nsets)).take nsets := by
      simp [List.getD_eq_getElem?_getD, List.getElem?_map, List.getElem?_range hrr]
    rw [h1, h2, getD_drop_take _ _ _ _ _ hs, getD_drop]
    congr 1
    omega

/-- Witness for C3 at the spec's concrete scenario B. -/
theorem pawn_layout_decode_correct_witness :
    0 < 3 ∧ 0 < 2 ∧ 0 < 1 ∧ ([0, 0, 0, 1, 1, 1, 2, 2, 2] : List ℚ).length = 3 + 1 * (2 * 3) ∧
    (∃ g, pawnLayout 3 2 [0, 0, 0, 1, 1, 1, 2, 2, 2] = some g ∧
      g.npara = (((([0, 0, 0, 1, 1, 1, 2, 2, 2] : List ℚ).length - 3) / (2 * 3) : ℕ) : ℤ) ∧
      g.npara = ((1 : ℕ) : ℤ) ∧
      g.uncond = ([0, 0, 0, 1, 1, 1, 2, 2, 2] : List ℚ).take 3 ∧
      g.cond.length = 2 ∧
      (∀ r, r < 2 → (g.cond.getD r []).length = 1) ∧
      (∀ r i s, r < 2 → i < 1 → s < 3 →
        ((g.cond.getD r []).getD i []).getD s 0
          = ([0, 0, 0, 1, 1, 1, 2, 2, 2] : List ℚ).getD (3 + i * (2 * 3) + r * 3 + s) 0)) :=
  ⟨by decide, by decide, by decide, by decide,
    pawn_layout_decode_correct 3 2 1 [0, 0, 0, 1, 1, 1, 2, 2, 2]
      (by decide) (by decide) (by decide) (by decide)⟩

/-! ### Claim C1 (corrected) -/

/-- Evaluation of the driver on the Sobol counterexample input `[1, 2]`
with `nsets = 2`: the length invariant is violated (`npara = -1`), but the
reshape of the empty remainder with an inferred dimension succeeds, the
estimator is invoked, and the run completes writing a header-only file. -/
theorem runMethod_sobol_short_eval :
    runMethod ⟨"sobol".toList, 0, [], 0⟩ 2 [1, 2] =
      ⟨some "# Si    STi \n", true, .ok ()⟩ := by
  have h : sobol_index [1, 2] [] [] = .ok ([], []) := by
    norm_num [sobol_index, sampleVar, sampleMean]
  have hl : sobolLayout 2 [1, 2] = some ⟨-1, [1, 2], [], []⟩ := by decide
  simp [runMethod, hl, h, sobolReport, String.join]

/-- Counterexample to C1 as stated: for `nsets = 2` and the vector `[1,2]`
(`L = 2`), `(L - 2*nsets)` is not an exact nonnegative multiple of `nsets`,
yet the Sobol layout step raises no error at all and the estimator is
invoked (the run even completes normally). -/
theorem layout_error_claim_counterexample :
    (¬ ∃ k : ℕ, (([1, 2] : List ℚ).length : ℤ) - 2 * 2 = (k : ℤ) * 2) ∧
    (sobolLayout 2 [1, 2]).isSome = true ∧
    (runMethod ⟨"sobol".toList, 0, [], 0⟩ 2 [1, 2]).estCalled = true ∧
    (runMethod ⟨"sobol".toList, 0, [], 0⟩ 2 [1, 2]).res = .ok () := by
  refine ⟨?_, by decide, ?_, ?_⟩
  · rintro ⟨k, hk⟩
    simp only [List.length_cons, List.length_nil] at hk
    omega
  · rw [runMethod_sobol_short_eval]
  · rw [runMethod_sobol_short_eval]

/-- C1 (amended): for positive `nsets` and `nf` the layout step fails —
numpy's reshape `ValueError`, the spec's `LayoutError` — exactly when
`L ≥ 2*nsets` and `nsets ∤ L` (Sobol), resp. `L ≥ nsets` and
`nf*nsets ∤ (L - nsets)` (PAWN); when it fails, the run aborts before any
estimator is invoked and before the output file is opened.  For shorter
vectors the inferred-dimension reshape of the empty remainder succeeds and
the estimator is invoked despite the violated invariant. -/
theorem layout_error_exact_conditions (nsets nrepl : ℕ) (y : List ℚ)
    (hn : 0 < nsets) (hr : 0 < nrepl) :
    (sobolLayout nsets y = none ↔ 2 * nsets ≤ y.length ∧ ¬ nsets ∣ y.length) ∧
    (pawnLayout nsets nrepl y = none ↔
      nsets ≤ y.length ∧ ¬ (nrepl * nsets) ∣ (y.length - nsets)) ∧
    (∀ m : MethodSpec, m.tag = "sobol".toList → sobolLayout nsets y = none →
      runMethod m nsets y = ⟨none, false, .error .layout⟩) ∧
    (∀ m : MethodSpec, m.tag = "pawn".toList → m.nf.toNat = nrepl →
      pawnLayout nsets nrepl y = none →
      runMethod m nsets y = ⟨none, false, .error .layout⟩) ∧
    (∀ m : MethodSpec, m.tag = "sobol".toList → sobolLayout nsets y ≠ none →
      (runMethod m nsets y).estCalled = true) ∧
    (∀ m : MethodSpec, m.tag = "pawn".toList → m.nf.toNat = nrepl →
      pawnLayout nsets nrepl y ≠ none →
      (runMethod m nsets y).estCalled = true) := by
  have hne : ("pawn".toList : List Char) ≠ "sobol".toList := by decide
  refine ⟨sobolLayout_none_iff nsets y hn, pawnLayout_none_iff nsets nrepl y hn hr,
    ?_, ?_, ?_, ?_⟩
  · intro m hm hnone
    rw [runMethod, hm, if_pos rfl, hnone]
  · intro m hm hnf hnone
    rw [runMethod, hm, if_neg hne, if_pos rfl, hnf, hnone]
  · intro m hm hnone
    rw [runMethod, hm, if_pos rfl]
    obtain ⟨g, hg⟩ := Option.ne_none_iff_exists'.mp hnone
    rw [hg]
    rcases hsi : sobol_index g.model_a g.model_b g.model_c with e | ⟨si, sti⟩ <;>
      simp [hsi]
  · intro m hm hnf hnone
    rw [runMethod, hm, if_neg hne, if_pos rfl, hnf]
    obtain ⟨g, hg⟩ := Option.ne_none_iff_exists'.mp hnone
    rw [hg]
    rcases hsi : pawn_index g.uncond g.cond m.stat m.alpha with e | ⟨pw, infl⟩ <;>
      simp [hsi]

/-- Witness for the amended C1 at `nsets = 2`, `nf = 1` and the
length-5 vector (both layouts fail there: `4 ≤ 5` with `2 ∤ 5`, and
`2 ≤ 5` with `2 ∤ 3`). -/
theorem layout_error_exact_conditions_witness :
    0 < 2 ∧ 0 < 1 ∧
    ((sobolLayout 2 ([1, 2, 3, 4, 5] : List ℚ) = none ↔
        2 * 2 ≤ ([1, 2, 3, 4, 5] : List ℚ).length ∧ ¬ 2 ∣ ([1, 2, 3, 4, 5] : List ℚ).length) ∧
     (pawnLayout 2 1 ([1, 2, 3, 4, 5] : List ℚ) = none ↔
        2 ≤ ([1, 2, 3, 4, 5] : List ℚ).length ∧
          ¬ (1 * 2) ∣ (([1, 2, 3, 4, 5] : List ℚ).length - 2)) ∧
     (∀ m : MethodSpec, m.tag = "sobol".toList → sobolLayout 2 ([1, 2, 3, 4, 5] : List ℚ) = none →
        runMethod m 2 [1, 2, 3, 4, 5] = ⟨none, false, .error .layout⟩) ∧
     (∀ m : MethodSpec, m.tag = "pawn".toList → m.nf.toNat = 1 →
        pawnLayout 2 1 ([1, 2, 3, 4, 5] : List ℚ) = none →
        runMethod m 2 [1, 2, 3, 4, 5] = ⟨none, false, .error .layout⟩) ∧
     (∀ m : MethodSpec, m.tag = "sobol".toList → sobolLayout 2 ([1, 2, 3, 4, 5] : List ℚ) ≠ none →
        (runMethod m 2 [1, 2, 3, 4, 5]).estCalled = true) ∧
     (∀ m : MethodSpec, m.tag = "pawn".toList → m.nf.toNat = 1 →
        pawnLayout 2 1 ([1, 2, 3, 4, 5] : List ℚ) ≠ none →
        (runMethod m 2 [1, 2, 3, 4, 5]).estCalled = true)) :=
  ⟨by decide, by decide,
    layout_error_exact_conditions 2 1 [1, 2, 3, 4, 5] (by decide) (by decide)⟩

/-! ### Claim C5 -/

/-- C5: for the concrete Sobol input `nsets = 2` with vector
`[1, 2, 3, 4, 5, 6]` (`L = 6`, one parameter), the layout decoder produces
`modelA = [1, 2]`, `modelB = [3, 4]`, `modelC = [[5, 6]]`, and the
(spec-modelled) estimator succeeds, producing the two finite rationals
`Si[0]` and `STi[0]` (no degenerate-sample failure: the pooled variance is
nonzero). -/
theorem sobol_concrete_scenario_a :
    sobolLayout 2 [1, 2, 3, 4, 5, 6] = some ⟨1, [1, 2], [3, 4], [[5, 6]]⟩ ∧
    (∃ s t : ℚ, sobol_index [1, 2] [3, 4] [[5, 6]] = .ok ([s], [t])) := by
  refine ⟨by decide, 57 / 5, 8 / 5, ?_⟩
  norm_num [sobol_index, sampleVar, sampleMean]

/-! ### Claim C6 -/

/-- C6: for every method specification whose tag is neither `'sobol'` nor
`'pawn'`, the driver raises the unsupported-method error (the spec's
`UnsupportedMethodError`, a `ValueError` in the source) and aborts without
invoking an estimator or opening the output file, so no sensitivity
results are produced. -/
theorem unsupported_method_rejected (m : MethodSpec) (nsets : ℕ) (y : List ℚ)
    (hs : m.tag ≠ "sobol".toList) (hp : m.tag ≠ "pawn".toList) :
    runMethod m nsets y = ⟨none, false, .error .unsupported⟩ := by
  rw [runMethod, if_neg hs, if_neg hp]

/-- Witness for C6 at the tag `'fast99'`. -/
theorem unsupported_method_rejected_witness :
    ("fast99".toList ≠ "sobol".toList) ∧ ("fast99".toList ≠ "pawn".toList) ∧
    runMethod ⟨"fast99".toList, 0, [], 0⟩ 10 [1, 2, 3]
      = ⟨none, false, .error .unsupported⟩ :=
  ⟨by decide, by decide,
    unsupported_method_rejected ⟨"fast99".toList, 0, [], 0⟩ 10 [1, 2, 3]
      (by decide) (by decide)⟩

/-! ### Claim C8 (corrected) -/

/-- Evaluation of the driver on a constant (zero-variance) Sobol input:
the layout succeeds, the output file is opened for writing — created or
truncated to empty — and only then does the estimator fail with the
degenerate-sample error. -/
theorem runMethod_degenerate_eval :
    runMethod ⟨"sobol".toList, 0, [], 0⟩ 2 [1, 1, 1, 1, 1, 1] =
      ⟨some "", true, .error (.estim .degenerate)⟩ := by
  have h : sobol_index [1, 1] [1, 1] [[1, 1]] = .error .degenerate := by
    norm_num [sobol_index, sampleVar, sampleMean]
  have hl : sobolLayout 2 [1, 1, 1, 1, 1, 1] = some ⟨1, [1, 1], [1, 1], [[1, 1]]⟩ := by
    decide
  simp [runMethod, hl, h]

/-- Counterexample to C8 as stated: on the constant input
`[1, 1, 1, 1, 1, 1]` with `nsets = 2` the estimator fails, yet the output
file has been created (truncated to empty) — it is not left untouched. -/
theorem abort_output_file_counterexample :
    (runMethod ⟨"sobol".toList, 0, [], 0⟩ 2 [1, 1, 1, 1, 1, 1]).res
        = .error (.estim .degenerate) ∧
    (runMethod ⟨"sobol".toList, 0, [], 0⟩ 2 [1, 1, 1, 1, 1, 1]).file ≠ none := by
  rw [runMethod_degenerate_eval]
  exact ⟨rfl, by decide⟩

/-- C8 (amended): every detected error aborts the run with no sensitivity
results, but the output-file state depends on the phase: method-formatting
errors abort before the input file is read; dispatch and layout errors
abort before the output file is opened, leaving it untouched; the output
file is however opened for writing (created/truncated) before the
estimator runs, so estimator failures leave behind a created, empty
output file. -/
theorem abort_semantics (m : MethodSpec) (nsets : ℕ) (y : List ℚ) :
    ((runMethod m nsets y).res = .error .layout → (runMethod m nsets y).file = none) ∧
    ((runMethod m nsets y).res = .error .unsupported → (runMethod m nsets y).file = none) ∧
    (∀ e, (runMethod m nsets y).res = .error (.estim e) →
      (runMethod m nsets y).file = some "") ∧
    (∀ arg e, (program arg nsets y).res = .error (.fmt e) →
      (program arg nsets y).readInput = false ∧ (program arg nsets y).file = none) := by
  have H : (∃ r, runMethod m nsets y = ⟨none, false, .error r⟩ ∧
              (r = .layout ∨ r = .unsupported)) ∨
           (∃ e, runMethod m nsets y = ⟨some "", true, .error (.estim e)⟩) ∨
           (∃ s, runMethod m nsets y = ⟨some s, true, .ok ()⟩) := by
    rw [runMethod]
    by_cases hs : m.tag = "sobol".toList
    · rw [if_pos hs]
      cases hl : sobolLayout nsets y with
      | none => exact .inl ⟨.layout, rfl, .inl rfl⟩
      | some g =>
        rcases hsi : sobol_index g.model_a g.model_b g.model_c with e | ⟨si, sti⟩
        · exact .inr (.inl ⟨e, by simp [hsi]⟩)
        · exact .inr (.inr ⟨sobolReport g.npara si sti, by simp [hsi]⟩)
    · rw [if_neg hs]
      by_cases hp : m.tag = "pawn".toList
      · rw [if_pos hp]
        cases hl : pawnLayout nsets m.nf.toNat y with
        | none => exact .inl ⟨.layout, rfl, .inl rfl⟩
        | some g =>
          rcases hsi : pawn_index g.uncond g.cond m.stat m.alpha with e | ⟨pw, infl⟩
          · exact .inr (.inl ⟨e, by simp [hsi]⟩)
          · exact .inr (.inr ⟨pawnReport g.npara pw infl, by simp [hsi]⟩)
      · rw [if_neg hp]
        exact .inl ⟨.unsupported, rfl, .inr rfl⟩
  refine ⟨?_, ?_, ?_, ?_⟩
  · intro h
    rcases H with ⟨r, hEq, _⟩ | ⟨e, hEq⟩ | ⟨s, hEq⟩ <;> rw [hEq] at h ⊢ <;> simp_all
  · intro h
    rcases H with ⟨r, hEq, _⟩ | ⟨e, hEq⟩ | ⟨s, hEq⟩ <;> rw [hEq] at h ⊢ <;> simp_all
  · intro e h
    rcases H with ⟨r, hEq, hro⟩ | ⟨e2, hEq⟩ | ⟨s, hEq⟩ <;> rw [hEq] at h ⊢ <;> simp_all
  · intro arg e h
    cases hf : methodFormat arg with
    | error e2 => simp [program, hf]
    | ok mm =>
      rw [program] at h
      rw [hf] at h
      rcases hr2 : (runMethod mm nsets y).res with u | er <;>
        simp [hr2, Except.mapError] at h
  
/-- Witness for the amended C8: the estimator-failure clause applied at
the degenerate concrete input, and the formatting-failure clause applied
at the truncated method string `'pawn'`. -/
theorem abort_semantics_witness :
    (runMethod ⟨"sobol".toList, 0, [], 0⟩ 2 [1, 1, 1, 1, 1, 1]).file = some "" ∧
    ((program (some "pawn".toList) 10 []).readInput = false ∧
      (program (some "pawn".toList) 10 []).file = none) :=
  ⟨(abort_semantics ⟨"sobol".toList, 0, [], 0⟩ 2 [1, 1, 1, 1, 1, 1]).2.2.1 .degenerate
      (by rw [runMethod_degenerate_eval]),
   (abort_semantics ⟨"sobol".toList, 0, [], 0⟩ 10 []).2.2.2 (some "pawn".toList) .indexErr
      (by decide)⟩

/-! ### Claim C7 (corrected) -/

/-- Evaluation of the driver on the successful concrete Sobol run:
the file is the header followed by one data line. -/
theorem runMethod_scenario_a_eval :
    runMethod ⟨"sobol".toList, 0, [], 0⟩ 2 [1, 2, 3, 4, 5, 6] =
      ⟨some ("# Si    STi \n" ++ (pyStr (57 / 5) ++ " " ++ pyStr (8 / 5) ++ " \n")),
        true, .ok ()⟩ := by
  have h : sobol_index [1, 2] [3, 4] [[5, 6]] = .ok ([57 / 5], [8 / 5]) := by
    norm_num [sobol_index, sampleVar, sampleMean]
  have hl : sobolLayout 2 [1, 2, 3, 4, 5, 6] = some ⟨1, [1, 2], [3, 4], [[5, 6]]⟩ := by
    decide
  simp [runMethod, hl, h, sobolReport, String.join, List.range_succ]

/-- Counterexample to C7 as stated: on a successful concrete Sobol run
the output file's header line carries a trailing space before the newline
— the first 12 characters are `"# Si    STi "`, not the claimed header
`"# Si    STi"` followed by a newline. -/
theorem report_header_counterexample :
    (runMethod ⟨"sobol".toList, 0, [], 0⟩ 2 [1, 2, 3, 4, 5, 6]).res = .ok () ∧
    ∃ F, (runMethod ⟨"sobol".toList, 0, [], 0⟩ 2 [1, 2, 3, 4, 5, 6]).file = some F ∧
      F.toList.take 12 = "# Si    STi ".toList ∧
      "# Si    STi ".toList ≠ "# Si    STi\n".toList := by
  rw [runMethod_scenario_a_eval]
  refine ⟨rfl, _, rfl, ?_, by decide⟩
  show ("# Si    STi \n" ++ (pyStr (57 / 5) ++ " " ++ pyStr (8 / 5) ++ " \n")).toList.take 12
      = "# Si    STi ".toList
  simp only [String.toList, String.data_append]
  rw [List.take_append_of_le_length (by decide)]
  decide

/-- C7 (amended): for every successful run the output file consists of
exactly one header line — `"# Si    STi "` for Sobol or
`"# PAWN    Influential "` for PAWN, each with a trailing space before its
newline just like the data lines — followed by one line per parameter, in
parameter order, each line holding the two rendered result fields
separated by a single space with a trailing space before the newline and
no transformation of the values beyond the one `str` rendering. -/
theorem report_format (m : MethodSpec) (nsets : ℕ) (y : List ℚ)
    (hok : (runMethod m nsets y).res = .ok ()) :
    (m.tag = "sobol".toList →
      ∃ g si sti, sobolLayout nsets y = some g ∧
        sobol_index g.model_a g.model_b g.model_c = .ok (si, sti) ∧
        (runMethod m nsets y).file = some ("# Si    STi \n" ++
          String.join ((List.range g.npara.toNat).map (fun i =>
            pyStr (si.getD i 0) ++ " " ++ pyStr (sti.getD i 0) ++ " \n")))) ∧
    (m.tag = "pawn".toList →
      ∃ g pw infl, pawnLayout nsets m.nf.toNat y = some g ∧
        pawn_index g.uncond g.cond m.stat m.alpha = .ok (pw, infl) ∧
        (runMethod m nsets y).file = some ("# PAWN    Influential \n" ++
          String.join ((List.range g.npara.toNat).map (fun i =>
            pyStr (pw.getD i 0) ++ " " ++ pyBoolStr (infl.getD i false) ++ " \n")))) := by
  constructor
  · intro hs
    rw [runMethod, if_pos hs] at hok ⊢
    cases hl : sobolLayout nsets y with
    | none =>
      simp [hl] at hok
    | some g =>
      rcases hsi : sobol_index g.model_a g.model_b g.model_c with e | ⟨si, sti⟩
      · simp [hl, hsi] at hok
      · refine ⟨g, si, sti, rfl, hsi, ?_⟩
        simp [hsi, sobolReport]
  · intro hp
    have hs : m.tag ≠ "sobol".toList := by
      rw [hp]
      decide
    rw [runMethod, if_neg hs, if_pos hp] at hok ⊢
    cases hl : pawnLayout nsets m.nf.toNat y with
    | none =>
      simp [hl] at hok
    | some g =>
      rcases hsi : pawn_index g.uncond g.cond m.stat m.alpha with e | ⟨pw, infl⟩
      · simp [hl, hsi] at hok
      · refine ⟨g, pw, infl, rfl, hsi, ?_⟩
        simp [hsi, pawnReport]

/-- Witness for the amended C7 at the successful concrete Sobol run. -/
theorem report_format_witness :
    ((⟨"sobol".toList, 0, [], 0⟩ : MethodSpec).tag = "sobol".toList →
      ∃ g si sti, sobolLayout 2 [1, 2, 3, 4, 5, 6] = some g ∧
        sobol_index g.model_a g.model_b g.model_c = .ok (si, sti) ∧
        (runMethod ⟨"sobol".toList, 0, [], 0⟩ 2 [1, 2, 3, 4, 5, 6]).file
          = some ("# Si    STi \n" ++
            String.join ((List.range g.npara.toNat).map (fun i =>
              pyStr (si.getD i 0) ++ " " ++ pyStr (sti.getD i 0) ++ " \n")))) ∧
    ((⟨"sobol".toList, 0, [], 0⟩ : MethodSpec).tag = "pawn".toList →
      ∃ g pw infl, pawnLayout 2 (⟨"sobol".toList, 0, [], 0⟩ : MethodSpec).nf.toNat
          [1, 2, 3, 4, 5, 6] = some g ∧
        pawn_index g.uncond g.cond (⟨"sobol".toList, 0, [], 0⟩ : MethodSpec).stat
            (⟨"sobol".toList, 0, [], 0⟩ : MethodSpec).alpha = .ok (pw, infl) ∧
        (runMethod ⟨"sobol".toList, 0, [], 0⟩ 2 [1, 2, 3, 4, 5, 6]).file
          = some ("# PAWN    Influential \n" ++
            String.join ((List.range g.npara.toNat).map (fun i =>
              pyStr (pw.getD i 0) ++ " " ++ pyBoolStr (infl.getD i false) ++ " \n")))) :=
  report_format ⟨"sobol".toList, 0, [], 0⟩ 2 [1, 2, 3, 4, 5, 6]
    (by rw [runMethod_scenario_a_eval])

/-! ### String-processing lemmas for the method-argument formatting -/

theorem consHead_headD (x : α) (L : List (List α)) (hL : L ≠ []) :
    (consHead x L).headD [] = x :: L.headD [] := by
  cases L with
  | nil => exact absurd rfl hL
  | cons y ys => rfl

theorem consHead_length (x : α) (L : List (List α)) (hL : L ≠ []) :
    (consHead x L).length = L.length := by
  cases L with
  | nil => exact absurd rfl hL
  | cons y ys => rfl

theorem splitComma_ne_nil : ∀ l : List Char, splitComma l ≠ []
  | [] => by simp [splitComma]
  | x :: xs => by
    by_cases hx : x = ','
    · simp [splitComma, hx]
    · simp only [splitComma, if_neg hx]
      cases hsc : splitComma xs with
      | nil => exact absurd hsc (splitComma_ne_nil xs)
      | cons y ys => simp [consHead]

theorem length_splitComma : ∀ l : List Char, (splitComma l).length = l.count ',' + 1
  | [] => by simp [splitComma]
  | x :: xs => by
    by_cases hx : x = ','
    · simp [splitComma, hx, length_splitComma xs, List.count_cons]
    · rw [splitComma, if_neg hx, consHead_length _ _ (splitComma_ne_nil xs),
        length_splitComma xs]
      simp [List.count_cons, hx]

theorem splitComma_append_comma : ∀ (h t : List Char), (∀ c ∈ h, c ≠ ',') →
    splitComma (h ++ ',' :: t) = h :: splitComma t
  | [], t, _ => by simp [splitComma]
  | x :: h', t, hc => by
    have hx : x ≠ ',' := hc x (by simp)
    have ih := splitComma_append_comma h' t (fun c hmem => hc c (by simp [hmem]))
    show splitComma (x :: (h' ++ ',' :: t)) = (x :: h') :: splitComma t
    rw [splitComma, if_neg hx, ih]
    rfl

/-- Structure of `splitComma`: either the string has no comma and is its
own single piece, or it splits as first piece, comma, tail. -/
theorem splitComma_structure : ∀ s : List Char,
    (splitComma s = [s] ∧ ',' ∉ s) ∨
    (∃ t, s = ((splitComma s).headD []) ++ ',' :: t ∧
      splitComma s = ((splitComma s).headD []) :: splitComma t ∧
      ',' ∉ (splitComma s).headD []) := by
  intro s
  induction s with
  | nil => exact .inl ⟨rfl, by simp⟩
  | cons x xs ih =>
    by_cases hx : x = ','
    · subst hx
      refine .inr ⟨xs, ?_, ?_, ?_⟩ <;> simp [splitComma]
    · rcases ih with ⟨hsc, hnc⟩ | ⟨t, hdec, hsplit, hnc⟩
      · refine .inl ⟨?_, ?_⟩
        · rw [splitComma, if_neg hx, hsc]
          rfl
        · simp only [List.mem_cons, not_or]
          exact ⟨fun h => hx h.symm, hnc⟩
      · refine .inr ⟨t, ?_, ?_, ?_⟩
        · rw [splitComma, if_neg hx,
            consHead_headD _ _ (splitComma_ne_nil xs)]
          show x :: xs = (x :: (splitComma xs).headD []) ++ ',' :: t
          rw [List.cons_append]
          rw [← hdec]
        · rw [splitComma, if_neg hx, consHead_headD _ _ (splitComma_ne_nil xs)]
          cases hsc : splitComma xs with
          | nil => exact absurd hsc (splitComma_ne_nil xs)
          | cons y ys =>
            rw [hsc] at hsplit
            simp only [consHead, hsc, List.headD_cons]
            rw [List.headD_cons] at hsplit
            exact congrArg (fun l => (x :: y) :: l) (List.cons.injEq .. ▸ hsplit).2
        · rw [splitComma, if_neg hx, consHead_headD _ _ (splitComma_ne_nil xs)]
          simp only [List.mem_cons, not_or]
          refine ⟨fun h => hx h.symm, ?_⟩
          simpa using hnc

theorem splitBrComma_ne_nil : ∀ l : List Char, splitBrComma l ≠ []
  | [] => by simp [splitBrComma]
  | [x] => by simp [splitBrComma]
  | x :: y :: rest => by
    by_cases hxy : x = ']' ∧ y = ','
    · simp [splitBrComma, hxy]
    · rw [splitBrComma, if_neg hxy]
      cases hsc : splitBrComma (y :: rest) with
      | nil => exact absurd hsc (splitBrComma_ne_nil (y :: rest))
      | cons z zs => simp [consHead]

theorem splitBrComma_append_headD : ∀ (h t : List Char), (∀ c ∈ h, c ≠ ']') →
    (splitBrComma (h ++ t)).headD [] = h ++ (splitBrComma t).headD []
  | [], t, _ => by simp
  | x :: h', t, hc => by
    have hx : x ≠ ']' := hc x (by simp)
    have ih := splitBrComma_append_headD h' t (fun c hmem => hc c (by simp [hmem]))
    show (splitBrComma (x :: (h' ++ t))).headD [] = (x :: h') ++ (splitBrComma t).headD []
    cases heq : h' ++ t with
    | nil =>
      obtain ⟨h'nil, tnil⟩ := List.append_eq_nil.mp heq
      subst h'nil
      subst tnil
      simp [splitBrComma]
    | cons z zs =>
      rw [splitBrComma, if_neg (fun hand => hx hand.1),
        consHead_headD _ _ (splitBrComma_ne_nil (z :: zs))]
      rw [heq] at ih
      rw [ih]
      rfl

theorem splitBrComma_headD_count : ∀ l : List Char,
    (((splitBrComma l).headD []).count ',') ≤ l.count ','
  | [] => by simp [splitBrComma]
  | [x] => by simp [splitBrComma]
  | x :: y :: rest => by
    by_cases hxy : x = ']' ∧ y = ','
    · rw [splitBrComma, if_pos hxy]
      simp
    · rw [splitBrComma, if_neg hxy,
        consHead_headD _ _ (splitBrComma_ne_nil (y :: rest))]
      have ih := splitBrComma_headD_count (y :: rest)
      simp only [List.count_cons] at ih ⊢
      omega

theorem count_removeChar (c a : Char) (hca : c ≠ a) (l : List Char) :
    (removeChar c l).count a = l.count a := by
  induction l with
  | nil => rfl
  | cons x xs ih =>
    by_cases hx : x = c
    · have h1 : removeChar c (x :: xs) = removeChar c xs := by
        simp [removeChar, List.filter_cons, hx]
      have h2 : (x :: xs).count a = xs.count a := by
        rw [List.count_cons]
        have hb : (x == a) = false := beq_eq_false_iff_ne.mpr (by rw [hx]; exact hca)
        simp [hb]
      rw [h1, h2, ih]
    · have h1 : removeChar c (x :: xs) = x :: removeChar c xs := by
        simp [removeChar, List.filter_cons, hx]
      rw [h1, List.count_cons, List.count_cons, ih]

/-- Processing a method string `"pawn," ++ t`: bracket removal, the
`'],'` split's first piece and the comma split leave a first element
`"pawn"` followed by at most `t.count ',' + 1` further elements. -/
theorem methodTmp_pawn (t : List Char) (hcount : t.count ',' ≤ 1) :
    ∃ ts : List (List Char), methodTmp ("pawn".toList ++ ',' :: t) = "pawn".toList :: ts ∧
      ts ≠ [] ∧ ts.length ≤ 2 := by
  unfold methodTmp
  have h1 : removeChar '[' ("pawn".toList ++ ',' :: t)
      = "pawn".toList ++ ',' :: removeChar '[' t := rfl
  rw [h1]
  have h2 : (splitBrComma ("pawn".toList ++ (',' :: removeChar '[' t))).headD []
      = "pawn".toList ++ (splitBrComma (',' :: removeChar '[' t)).headD [] :=
    splitBrComma_append_headD _ _ (by decide)
  rw [h2]
  have h3 : (splitBrComma (',' :: removeChar '[' t)).headD []
      = ',' :: (splitBrComma (removeChar '[' t)).headD [] :=
    splitBrComma_append_headD [','] _ (by decide)
  rw [h3]
  have h4 : removeChar ']' ("pawn".toList ++
        ',' :: (splitBrComma (removeChar '[' t)).headD [])
      = "pawn".toList ++
        ',' :: removeChar ']' ((splitBrComma (removeChar '[' t)).headD []) := rfl
  rw [h4]
  rw [splitComma_append_comma _ _ (by decide)]
  refine ⟨_, rfl, splitComma_ne_nil _, ?_⟩
  rw [length_splitComma]
  have h5 : (removeChar ']' ((splitBrComma (removeChar '[' t)).headD [])).count ','
      = ((splitBrComma (removeChar '[' t)).headD []).count ',' :=
    count_removeChar ']' ',' (by decide) _
  have h6 := splitBrComma_headD_count (removeChar '[' t)
  have h7 : (removeChar '[' t).count ',' = t.count ',' :=
    count_removeChar '[' ',' (by decide) _
  omega

/-! ### Claim C10 (corrected) -/

/-- Counterexample to C10 as stated: the method argument `"pawn,abc"` has
first comma-separated element `'pawn'` and only two comma-separated
elements, yet the formatting step raises the typed integer-conversion
error (`ValueError` from `np.int('abc')`), not the untyped out-of-range
indexing error — the conversion of element 1 runs before the access to
element 2. -/
theorem pawn_method_arg_conversion_counterexample :
    (splitComma "pawn,abc".toList).headD [] = "pawn".toList ∧
    (splitComma "pawn,abc".toList).length < 4 ∧
    methodFormat (some "pawn,abc".toList) = .error .valueErr ∧
    (Except.error FmtErr.valueErr : Except FmtErr MethodSpec) ≠ .error .indexErr ∧
    program (some "pawn,abc".toList) 10 [] =
      ⟨false, none, false, .error (.fmt .valueErr)⟩ := by
  refine ⟨by decide, by decide, by decide, by decide, by decide⟩

/-- C10 (amended): for every method argument string whose first
comma-separated element is `'pawn'` and which has fewer than four
comma-separated elements, the argument-formatting step fails before any
input is read; the failure is the untyped out-of-range indexing error
provided the second processed element, when present, parses as an integer
(a malformed second element instead raises the integer-conversion error
first, as the counterexample shows). -/
theorem pawn_short_method_arg_index_error (s : List Char)
    (h1 : (splitComma s).headD [] = "pawn".toList)
    (h2 : (splitComma s).length < 4)
    (h3 : ∀ t1, (methodTmp s)[1]? = some t1 → (pyInt t1).isSome) :
    methodFormat (some s) = .error .indexErr ∧
    (∀ nsets y, program (some s) nsets y = ⟨false, none, false, .error (.fmt .indexErr)⟩) := by
  have hfmt : methodFormat (some s) = .error .indexErr := by
    rcases splitComma_structure s with ⟨hsc, hnc⟩ | ⟨t, hdec, hsplit, hnc⟩
    · have hs : s = "pawn".toList := by
        rw [← h1, hsc]
        rfl
      subst hs
      decide
    · rw [h1] at hdec hsplit
      have hlen2 : (splitComma t).length ≤ 2 := by
        rw [hsplit] at h2
        simp only [List.length_cons] at h2
        omega
      have hcount : t.count ',' ≤ 1 := by
        have hls := length_splitComma t
        omega
      obtain ⟨ts, htmp, htsne, htslen⟩ := methodTmp_pawn t hcount
      rw [hdec] at h3 ⊢
      simp only [methodFormat]
      rw [htmp]
      cases ts with
      | nil => exact absurd rfl htsne
      | cons t1 ts' =>
        have hp : (pyInt t1).isSome := by
          apply h3
          rw [htmp]
          simp
        obtain ⟨nf, hnf⟩ := Option.isSome_iff_exists.mp hp
        cases ts' with
        | nil => simp [hnf]
        | cons t2 ts'' =>
          cases ts'' with
          | nil => simp [hnf]
          | cons t3 ts3 =>
            exfalso
            simp only [List.length_cons] at htslen
            omega
  refine ⟨hfmt, fun nsets y => ?_⟩
  rw [program, hfmt]

/-- Witness for the amended C10 at the method string `"pawn,5"`. -/
theorem pawn_short_method_arg_index_error_witness :
    (splitComma "pawn,5".toList).headD [] = "pawn".toList ∧
    (splitComma "pawn,5".toList).length < 4 ∧
    (methodFormat (some "pawn,5".toList) = .error .indexErr ∧
      (∀ nsets y, program (some "pawn,5".toList) nsets y =
        ⟨false, none, false, .error (.fmt .indexErr)⟩)) :=
  ⟨by decide, by decide,
    pawn_short_method_arg_index_error "pawn,5".toList (by decide) (by decide)
      (by
        intro t1 ht1
        rw [show (methodTmp "pawn,5".toList)[1]? = some ['5'] from rfl] at ht1
        cases ht1
        decide)⟩
